import Mathlib

/-!
# Verification of the MapUtil core of `ol-util`

A shallow embedding of the `MapUtil` class (scale/resolution conversion,
zoom resolution, layer-tree flattening and position lookup, resolution-range
check and legend-URL construction), with theorems settling the spec claims.

JavaScript numbers are modelled as exact rationals (`ℚ`); the special IEEE
values `NaN`, `Infinity` and `-Infinity`, which the zoom resolver has to
handle, are modelled by the wrapper type `JSNum`.  Fallible code returns
`Except`/`Option`.
-/

/-! ## Unit and scale math (`getResolutionForScale`, `getScaleForResolution`) -/

/-- The recognized linear units: the keys of `METERS_PER_UNIT` from
`ol/proj/Units` that denote linear ground units. -/
inductive LinearUnit where
  | m
  | degrees
  | ft
  | usft
deriving DecidableEq, Repr

/-- `Math.PI` as the exact rational value of the IEEE-754 double. -/
def jsPi : ℚ := 884279719003555 / 281474976710656

/-- The `METERS_PER_UNIT` lookup table of `ol/proj/Units` (ol 5.x):
`degrees: 2 * Math.PI * 6370997 / 360`, `ft: 0.3048`, `m: 1`,
`'us-ft': 1200 / 3937`. -/
def METERS_PER_UNIT : LinearUnit → ℚ
  | .m => 1
  | .degrees => 2 * jsPi * 6370997 / 360
  | .ft => 3048 / 10000
  | .usft => 1200 / 3937

/-- `let dpi = 25.4 / 0.28;` -/
def dpi : ℚ := (254 / 10) / (28 / 100)

/-- `let inchesPerMeter = 39.37;` -/
def inchesPerMeter : ℚ := 3937 / 100

/-- `MapUtil.getResolutionForScale(scale, units)`:
`parseFloat(scale) / (mpu * inchesPerMeter * dpi)` (for a numeric `scale`,
`parseFloat` is the identity). -/
def getResolutionForScale (scale : ℚ) (units : LinearUnit) : ℚ :=
  let mpu := METERS_PER_UNIT units
  scale / (mpu * inchesPerMeter * dpi)

/-- `MapUtil.getScaleForResolution(resolution, units)`:
`parseFloat(resolution) * mpu * inchesPerMeter * dpi`. -/
def getScaleForResolution (resolution : ℚ) (units : LinearUnit) : ℚ :=
  let mpu := METERS_PER_UNIT units
  resolution * mpu * inchesPerMeter * dpi

theorem METERS_PER_UNIT_pos (u : LinearUnit) : 0 < METERS_PER_UNIT u := by
  cases u <;> norm_num [METERS_PER_UNIT, jsPi]

/-- C3: for every recognized linear unit and every resolution, converting the
resolution to a scale and back yields the original resolution (exactly, in the
rational model, hence in particular within floating-point tolerance):
`getScaleForResolution` multiplies by `metersPerUnit(u) * 39.37 * (25.4/0.28)`
and `getResolutionForScale` divides by the same nonzero factor. -/
theorem resolution_scale_roundtrip (u : LinearUnit) (r : ℚ) :
    getResolutionForScale (getScaleForResolution r u) u = r := by
  have hmpu : METERS_PER_UNIT u ≠ 0 := ne_of_gt (METERS_PER_UNIT_pos u)
  have h : METERS_PER_UNIT u * inchesPerMeter * dpi ≠ 0 := by
    have h1 : inchesPerMeter ≠ 0 := by norm_num [inchesPerMeter]
    have h2 : dpi ≠ 0 := by norm_num [dpi]
    exact mul_ne_zero (mul_ne_zero hmpu h1) h2
  simp only [getResolutionForScale, getScaleForResolution]
  rw [div_eq_iff h]
  ring

/-! ## JavaScript numbers for the zoom resolver

`getZoomForScale` is specified on `NaN`, infinite and negative scales, so its
scale argument is modelled by `JSNum`, an exact rational extended with the
three special IEEE-754 values.  Only the operations the function performs are
defined, each following IEEE-754 semantics. -/

inductive JSNum where
  | nan
  | posInf
  | negInf
  | fin (q : ℚ)
deriving DecidableEq, Repr

/-- `Number.isNaN(Number(scale))` for a numeric `scale` (on a number,
`Number` is the identity). -/
def jsIsNaN : JSNum → Bool
  | .nan => true
  | _ => false

/-- `scale < 0`: `NaN < 0` is false, `-Infinity < 0` is true. -/
def jsLtZero : JSNum → Bool
  | .nan => false
  | .posInf => false
  | .negInf => true
  | .fin q => q < 0

/-- Division of a JS number by a finite positive rational constant:
`NaN / k = NaN`, `±Infinity / k = ±Infinity`. -/
def jsDivPos (x : JSNum) (k : ℚ) : JSNum :=
  match x with
  | .fin q => .fin (q / k)
  | x => x

/-- `Math.abs(curr - R) < Math.abs(prev - R)` for finite `curr`, `prev` and a
JS number `R`: if `R` is `NaN` both sides are `NaN` and the comparison is
false; if `R` is `±Infinity` both sides are `+Infinity` and the strict
comparison is false. -/
def jsAbsDistLt (curr : ℚ) (R : JSNum) (prev : ℚ) : Bool :=
  match R with
  | .fin r => |curr - r| < |prev - r|
  | _ => false

/-- The error kinds relevant to `getZoomForScale`: `typeError` is what
`Array.prototype.reduce` throws on an empty array without an initial value;
`invalidArgument` is the explicit boundary signal the spec prescribes for an
empty resolution ladder (never produced by the code). -/
inductive JSErr where
  | typeError
  | invalidArgument
deriving DecidableEq, Repr

/-- The epsilon `1e-10` used for index recovery. -/
def zoomEps : ℚ := 1 / 10000000000

/-- `findIndex(resolutions, o => Math.abs(o - closestVal) <= 1e-10)`
(lodash `findIndex`: the index of the first match, `-1` if none). -/
def findIndexEps : List ℚ → ℚ → Int
  | [], _ => -1
  | o :: rest, closestVal =>
    if |o - closestVal| ≤ zoomEps then 0
    else
      let r := findIndexEps rest closestVal
      if r < 0 then -1 else r + 1

/-- `MapUtil.getResolutionForScale(scale, units)` as called from
`getZoomForScale`, where the scale may be a special IEEE value: the divisor
`mpu * inchesPerMeter * dpi` is finite and positive. -/
def jsGetResolutionForScale (scale : JSNum) (units : LinearUnit) : JSNum :=
  jsDivPos scale (METERS_PER_UNIT units * inchesPerMeter * dpi)

/-- `MapUtil.getZoomForScale(scale, resolutions, units = 'm')`.
The reduction `resolutions.reduce((prev, curr) => ...)` with no initial value
throws a `TypeError` on an empty array; on `r0 :: rest` it is a left fold over
`rest` starting from `r0`. -/
def getZoomForScale (scale : JSNum) (resolutions : List ℚ)
    (units : LinearUnit := .m) : Except JSErr Int :=
  if jsIsNaN scale then .ok 0
  else if jsLtZero scale then .ok 0
  else
    let calculatedResolution := jsGetResolutionForScale scale units
    match resolutions with
    | [] => .error .typeError
    | r0 :: rest =>
      let closestVal := rest.foldl
        (fun prev curr =>
          if jsAbsDistLt curr calculatedResolution prev then curr else prev) r0
      .ok (findIndexEps (r0 :: rest) closestVal)

/-! ### The reduction computes the first-encountered nearest ladder entry -/

theorem foldl_argAux_some (f : ℚ → ℚ) (rest : List ℚ) :
    ∀ (r0 : ℚ),
      rest.foldl (List.argAux fun b c => f b < f c) (some r0) =
        some (rest.foldl (fun prev curr => if f curr < f prev then curr else prev) r0) := by
  induction rest with
  | nil => intro r0; rfl
  | cons c cs ih =>
    intro r0
    simp only [List.foldl_cons]
    have harg : (List.argAux fun b c => f b < f c) (some r0) c =
        some (if f c < f r0 then c else r0) := by
      simp only [List.argAux]
      split <;> rfl
    rw [harg]
    exact ih (if f c < f r0 then c else r0)

theorem foldl_closest_argmin (r : ℚ) (rest : List ℚ) (r0 : ℚ) :
    List.argmin (fun x => |x - r|) (r0 :: rest) =
      some (rest.foldl
        (fun prev curr => if jsAbsDistLt curr (.fin r) prev then curr else prev) r0) := by
  have hstep :
      (fun (prev curr : ℚ) => if jsAbsDistLt curr (.fin r) prev then curr else prev) =
      (fun (prev curr : ℚ) => if |curr - r| < |prev - r| then curr else prev) := by
    funext prev curr
    simp [jsAbsDistLt]
  rw [hstep]
  show (r0 :: rest).foldl (List.argAux fun b c => |b - r| < |c - r|) none = _
  rw [List.foldl_cons]
  exact foldl_argAux_some (fun x => |x - r|) rest r0

theorem findIndexEps_spec (c : ℚ) (l : List ℚ) (hex : ∃ x ∈ l, |x - c| ≤ zoomEps) :
    findIndexEps l c = ((l.findIdx fun o => decide (|o - c| ≤ zoomEps) : ℕ) : Int) := by
  induction l with
  | nil => simp at hex
  | cons o rest ih =>
    by_cases h : |o - c| ≤ zoomEps
    · simp [findIndexEps, h, List.findIdx_cons]
    · have hex' : ∃ x ∈ rest, |x - c| ≤ zoomEps := by
        rcases hex with ⟨x, hx, hxc⟩
        rcases List.mem_cons.mp hx with rfl | hx'
        · exact absurd hxc h
        · exact ⟨x, hx', hxc⟩
      rw [findIndexEps]
      simp only [h, if_false, ih hex', List.findIdx_cons]
      have hnn : ¬ (((rest.findIdx fun o => decide (|o - c| ≤ zoomEps) : ℕ) : Int) < 0) := by
        exact not_lt.mpr (Int.natCast_nonneg _)
      simp [h, hnn]

/-- For a finite scale that passes the guards, `getZoomForScale` returns the
epsilon-recovered first index of the first-encountered nearest ladder entry
(`List.argmin` of the distance to the converted resolution). -/
theorem getZoomForScale_fin (q : ℚ) (u : LinearUnit) (r0 : ℚ) (rs : List ℚ)
    (hq : 0 ≤ q) :
    ∃ m : ℚ,
      List.argmin (fun x => |x - getResolutionForScale q u|) (r0 :: rs) = some m ∧
      getZoomForScale (.fin q) (r0 :: rs) u =
        .ok (((r0 :: rs).findIdx fun o => decide (|o - m| ≤ zoomEps) : ℕ) : Int) := by
  have hR : jsGetResolutionForScale (.fin q) u = .fin (getResolutionForScale q u) := rfl
  set R := getResolutionForScale q u with hRdef
  set closest := rs.foldl
    (fun prev curr => if jsAbsDistLt curr (.fin R) prev then curr else prev) r0 with hclosest
  have hargmin : List.argmin (fun x => |x - R|) (r0 :: rs) = some closest :=
    foldl_closest_argmin R rs r0
  have hmem : closest ∈ r0 :: rs := List.argmin_mem hargmin
  refine ⟨closest, hargmin, ?_⟩
  have hzoom : getZoomForScale (.fin q) (r0 :: rs) u =
      .ok (findIndexEps (r0 :: rs) closest) := by
    simp only [getZoomForScale, jsIsNaN, jsLtZero, hR]
    rw [if_neg (by simp), if_neg (by simp [not_lt.mpr hq])]
  rw [hzoom, findIndexEps_spec closest (r0 :: rs) ⟨closest, hmem, by simp [zoomEps]⟩]

/-- C2: for every finite non-negative scale and every non-empty resolution
ladder, `getZoomForScale` converts the scale to a resolution via
`getResolutionForScale` and returns the index, recovered with epsilon `1e-10`,
of the ladder entry with minimum absolute difference to that resolution, ties
going to the earlier entry (`m` is a member of the ladder, no member is
strictly closer, and every member at least as close appears no earlier); in
particular for the ladder `[100, 50, 25, 12.5]` and a scale whose converted
resolution is exactly `50`, it returns `1`. -/
theorem getZoomForScale_nearest :
    (∀ (q : ℚ) (u : LinearUnit) (r0 : ℚ) (rs : List ℚ), 0 ≤ q →
      ∃ m : ℚ,
        (m ∈ r0 :: rs ∧
          (∀ y ∈ r0 :: rs, |m - getResolutionForScale q u| ≤ |y - getResolutionForScale q u|) ∧
          (∀ y ∈ r0 :: rs, |y - getResolutionForScale q u| ≤ |m - getResolutionForScale q u| →
            (r0 :: rs).indexOf m ≤ (r0 :: rs).indexOf y)) ∧
        getZoomForScale (.fin q) (r0 :: rs) u =
          .ok (((r0 :: rs).findIdx fun o => decide (|o - m| ≤ zoomEps) : ℕ) : Int)) ∧
    getZoomForScale (.fin (getScaleForResolution 50 .m)) [100, 50, 25, 12.5] .m = .ok 1 := by
  constructor
  · intro q u r0 rs hq
    obtain ⟨m, hargmin, hzoom⟩ := getZoomForScale_fin q u r0 rs hq
    obtain ⟨hmem, hmin, hidx⟩ := List.argmin_eq_some_iff.mp hargmin
    exact ⟨m, ⟨hmem, hmin, hidx⟩, hzoom⟩
  · obtain ⟨m, hargmin, hzoom⟩ :=
      getZoomForScale_fin (getScaleForResolution 50 .m) .m 100 [50, 25, 12.5]
        (by norm_num [getScaleForResolution, METERS_PER_UNIT, inchesPerMeter, dpi])
    rw [resolution_scale_roundtrip .m 50] at hargmin
    have h50 : List.argmin (fun x => |x - (50 : ℚ)|) [100, 50, 25, 12.5] = some 50 := by
      rw [List.argmin_eq_some_iff]
      refine ⟨by norm_num, ?_, ?_⟩
      · intro y hy
        simp only [sub_self, abs_zero]
        exact abs_nonneg _
      · intro y hy hle
        simp only [sub_self, abs_zero] at hle
        have hy50 : y = 50 := by
          have h0 : |y - (50 : ℚ)| = 0 := le_antisymm hle (abs_nonneg _)
          have := abs_eq_zero.mp h0
          linarith [this]
        rw [hy50]
    have hm : m = 50 := by
      rw [hargmin] at h50
      exact Option.some.inj h50
    rw [hm] at hzoom
    rw [hzoom]
    have h100 : ¬ (|(100 : ℚ) - 50| ≤ zoomEps) := by
      have : |(100 : ℚ) - 50| = 50 := by norm_num
      rw [this, zoomEps]
      norm_num
    have h0eps : (0 : ℚ) ≤ zoomEps := by norm_num [zoomEps]
    simp [List.findIdx_cons, h100, h0eps]

/-- Witness for C2: the general part applied to the ladder `[100, 50, 25, 12.5]`
and the concrete scale whose converted resolution is exactly `50`. -/
theorem getZoomForScale_nearest_witness :
    ∃ m : ℚ,
      (m ∈ [(100 : ℚ), 50, 25, 12.5] ∧
        (∀ y ∈ [(100 : ℚ), 50, 25, 12.5],
          |m - getResolutionForScale (getScaleForResolution 50 .m) .m| ≤
            |y - getResolutionForScale (getScaleForResolution 50 .m) .m|) ∧
        (∀ y ∈ [(100 : ℚ), 50, 25, 12.5],
          |y - getResolutionForScale (getScaleForResolution 50 .m) .m| ≤
            |m - getResolutionForScale (getScaleForResolution 50 .m) .m| →
          [(100 : ℚ), 50, 25, 12.5].indexOf m ≤ [(100 : ℚ), 50, 25, 12.5].indexOf y)) ∧
      getZoomForScale (.fin (getScaleForResolution 50 .m)) [100, 50, 25, 12.5] .m =
        .ok (([(100 : ℚ), 50, 25, 12.5].findIdx fun o => decide (|o - m| ≤ zoomEps) : ℕ) : Int) :=
  getZoomForScale_nearest.1 (getScaleForResolution 50 .m) .m 100 [50, 25, 12.5]
    (by norm_num [getScaleForResolution, METERS_PER_UNIT, inchesPerMeter, dpi])

/-- C5: for every non-empty resolution ladder, `getZoomForScale` returns 0 on a
`NaN`, `+Infinity` or `-Infinity` scale and on every negative scale, and never
raises an error on such input. -/
theorem getZoomForScale_invalid_scale :
    ∀ (u : LinearUnit) (r0 : ℚ) (rs : List ℚ),
      getZoomForScale .nan (r0 :: rs) u = .ok 0 ∧
      getZoomForScale .posInf (r0 :: rs) u = .ok 0 ∧
      getZoomForScale .negInf (r0 :: rs) u = .ok 0 ∧
      ∀ (q : ℚ), q < 0 → getZoomForScale (.fin q) (r0 :: rs) u = .ok 0 := by
  intro u r0 rs
  refine ⟨?_, ?_, ?_, ?_⟩
  · simp [getZoomForScale, jsIsNaN]
  · -- `Number.isNaN(Infinity)` is false and `Infinity < 0` is false, but the
    -- reduction keeps the first ladder entry (`|curr - Infinity| < |prev -
    -- Infinity|` is never true) and index recovery finds it at index 0.
    have hfold : ∀ (l : List ℚ) (a : ℚ),
        l.foldl (fun prev curr =>
          if jsAbsDistLt curr (jsGetResolutionForScale .posInf u) prev then curr else prev) a
          = a := by
      intro l
      induction l with
      | nil => intro a; rfl
      | cons c cs ih =>
        intro a
        simp only [List.foldl_cons]
        rw [show (if jsAbsDistLt c (jsGetResolutionForScale .posInf u) a then c else a) = a
          from by simp [jsAbsDistLt, jsGetResolutionForScale, jsDivPos]]
        exact ih a
    simp only [getZoomForScale, jsIsNaN, jsLtZero]
    rw [if_neg (by simp), if_neg (by simp)]
    simp only [hfold rs r0]
    rw [findIndexEps]
    simp [zoomEps]
  · simp [getZoomForScale, jsIsNaN, jsLtZero]
  · intro q hq
    simp [getZoomForScale, jsIsNaN, jsLtZero, hq]

/-- Witness for C5: a negative scale on a concrete ladder maps to zoom 0. -/
theorem getZoomForScale_invalid_scale_witness :
    getZoomForScale (.fin (-1)) [100, 50, 25, 12.5] .m = .ok 0 :=
  (getZoomForScale_invalid_scale .m 100 [50, 25, 12.5]).2.2.2 (-1) (by norm_num)

/-- Counterexample to C6: at the concrete input scale `1000` and an empty
resolutions sequence, `getZoomForScale` does not signal an explicit
`InvalidArgument` error; it fails with the generic `TypeError` thrown by
reducing an empty sequence. -/
theorem getZoomForScale_empty_not_invalidArgument :
    getZoomForScale (.fin 1000) [] .m ≠ .error .invalidArgument ∧
    getZoomForScale (.fin 1000) [] .m = .error .typeError := by
  have hval : getZoomForScale (.fin 1000) [] .m = .error .typeError := by
    simp only [getZoomForScale, jsIsNaN, jsLtZero]
    norm_num
  refine ⟨?_, hval⟩
  rw [hval]
  simp

/-- C6 (amended): when `getZoomForScale` is called with an empty resolutions
sequence and a finite non-negative scale, it fails with the unguarded generic
`TypeError` raised by reducing the empty sequence; there is no explicit
`InvalidArgument` guard at the function boundary. -/
theorem getZoomForScale_empty_typeError :
    ∀ (q : ℚ) (u : LinearUnit), 0 ≤ q →
      getZoomForScale (.fin q) [] u = .error .typeError := by
  intro q u hq
  simp [getZoomForScale, jsIsNaN, jsLtZero, not_lt.mpr hq]

/-- Witness for C6 (amended): the failure at scale `1000` with units `'m'`. -/
theorem getZoomForScale_empty_typeError_witness :
    getZoomForScale (.fin 1000) [] .m = .error .typeError :=
  getZoomForScale_empty_typeError 1000 .m (by norm_num)

/-- C10: for every finite non-negative scale and non-empty ladder, the zoom
returned is a natural index strictly below the ladder length — the nearest
value selected by the reduction is an element of the ladder, so index recovery
with epsilon `1e-10` always succeeds and `-1` is never returned. -/
theorem getZoomForScale_index_in_range :
    ∀ (q : ℚ) (u : LinearUnit) (r0 : ℚ) (rs : List ℚ), 0 ≤ q →
      ∃ n : ℕ, getZoomForScale (.fin q) (r0 :: rs) u = .ok (n : Int) ∧
        n < (r0 :: rs).length := by
  intro q u r0 rs hq
  obtain ⟨m, hargmin, hzoom⟩ := getZoomForScale_fin q u r0 rs hq
  have hmem : m ∈ r0 :: rs := List.argmin_mem hargmin
  refine ⟨(r0 :: rs).findIdx fun o => decide (|o - m| ≤ zoomEps), hzoom, ?_⟩
  exact List.findIdx_lt_length_of_exists ⟨m, hmem, by simp [zoomEps]⟩

/-- Witness for C10: a concrete scale and ladder give a zoom inside the range. -/
theorem getZoomForScale_index_in_range_witness :
    ∃ n : ℕ, getZoomForScale (.fin 25000) [100, 50, 25, 12.5] .m = .ok (n : Int) ∧
      n < [(100 : ℚ), 50, 25, 12.5].length :=
  getZoomForScale_index_in_range 25000 .m 100 [50, 25, 12.5] (by norm_num)

/-! ## `roundScale`: tiered rounding -/

/-- `Math.round(q)`: round half toward positive infinity. -/
def jsRound (q : ℚ) : ℤ := ⌊q + 1 / 2⌋

/-- `MapUtil.roundScale(scale)`: four independent `if` statements, each
overwriting the local `roundScale` variable (`none` models the initial
`undefined`; the stray second argument in `Math.round(scale, 10)` is ignored
by `Math.round`). -/
def roundScale (scale : ℚ) : Option ℚ :=
  let r0 : Option ℚ := none
  let r1 := if scale < 100 then some ((jsRound scale : ℚ)) else r0
  let r2 := if 100 ≤ scale ∧ scale < 10000 then
    some ((jsRound (scale / 10) : ℚ) * 10) else r1
  let r3 := if 10000 ≤ scale ∧ scale < 1000000 then
    some ((jsRound (scale / 100) : ℚ) * 100) else r2
  let r4 := if 1000000 ≤ scale then
    some ((jsRound (scale / 1000) : ℚ) * 1000) else r3
  r4

theorem abs_jsRound_sub_le (q : ℚ) : |(jsRound q : ℚ) - q| ≤ 1 / 2 := by
  have h1 : ((jsRound q : ℤ) : ℚ) ≤ q + 1 / 2 := Int.floor_le (q + 1 / 2)
  have h2 : q + 1 / 2 < (jsRound q : ℚ) + 1 := Int.lt_floor_add_one (q + 1 / 2)
  rw [abs_le]
  constructor <;> linarith

/-- C7: for every non-negative scale, `roundScale` applies tiered rounding —
below 100 the rounded integer, in `[100, 10000)` a multiple of 10 within 5,
in `[10000, 1000000)` a multiple of 100 within 50, at or above 1000000 a
multiple of 1000 within 500 (each a nearest multiple, halves rounding up) —
and the boundary examples hold: `roundScale 99 = 99`, `roundScale 100 = 100`,
`roundScale 9999 = 10000` (nearest 10), `roundScale 10000 = 10000`,
`roundScale 999999 = 1000000` (nearest 100), `roundScale 1000000 = 1000000`
(nearest 1000). -/
theorem roundScale_tiers :
    (∀ q : ℚ, 0 ≤ q →
      (q < 100 →
        roundScale q = some ((jsRound q : ℚ)) ∧ |((jsRound q : ℚ)) - q| ≤ 1 / 2) ∧
      (100 ≤ q → q < 10000 →
        ∃ k : ℤ, roundScale q = some ((k : ℚ) * 10) ∧ |(k : ℚ) * 10 - q| ≤ 5) ∧
      (10000 ≤ q → q < 1000000 →
        ∃ k : ℤ, roundScale q = some ((k : ℚ) * 100) ∧ |(k : ℚ) * 100 - q| ≤ 50) ∧
      (1000000 ≤ q →
        ∃ k : ℤ, roundScale q = some ((k : ℚ) * 1000) ∧ |(k : ℚ) * 1000 - q| ≤ 500)) ∧
    roundScale 99 = some 99 ∧
    roundScale 100 = some 100 ∧
    roundScale 9999 = some 10000 ∧
    roundScale 10000 = some 10000 ∧
    roundScale 999999 = some 1000000 ∧
    roundScale 1000000 = some 1000000 := by
  have habs10 : ∀ q : ℚ, |((jsRound (q / 10) : ℤ) : ℚ) * 10 - q| ≤ 5 := by
    intro q
    have h := abs_jsRound_sub_le (q / 10)
    have heq : ((jsRound (q / 10) : ℤ) : ℚ) * 10 - q =
        (((jsRound (q / 10) : ℤ) : ℚ) - q / 10) * 10 := by ring
    rw [heq, abs_mul]
    rw [show |(10 : ℚ)| = 10 by norm_num]
    linarith
  have habs100 : ∀ q : ℚ, |((jsRound (q / 100) : ℤ) : ℚ) * 100 - q| ≤ 50 := by
    intro q
    have h := abs_jsRound_sub_le (q / 100)
    have heq : ((jsRound (q / 100) : ℤ) : ℚ) * 100 - q =
        (((jsRound (q / 100) : ℤ) : ℚ) - q / 100) * 100 := by ring
    rw [heq, abs_mul]
    rw [show |(100 : ℚ)| = 100 by norm_num]
    linarith
  have habs1000 : ∀ q : ℚ, |((jsRound (q / 1000) : ℤ) : ℚ) * 1000 - q| ≤ 500 := by
    intro q
    have h := abs_jsRound_sub_le (q / 1000)
    have heq : ((jsRound (q / 1000) : ℤ) : ℚ) * 1000 - q =
        (((jsRound (q / 1000) : ℤ) : ℚ) - q / 1000) * 1000 := by ring
    rw [heq, abs_mul]
    rw [show |(1000 : ℚ)| = 1000 by norm_num]
    linarith
  refine ⟨?_, ?_, ?_, ?_, ?_, ?_, ?_⟩
  · intro q _
    refine ⟨?_, ?_, ?_, ?_⟩
    · intro h1
      refine ⟨?_, abs_jsRound_sub_le q⟩
      simp only [roundScale]
      rw [if_neg (by linarith), if_neg (by rintro ⟨h, _⟩; linarith),
        if_neg (by rintro ⟨h, _⟩; linarith), if_pos h1]
    · intro h1 h2
      refine ⟨jsRound (q / 10), ?_, habs10 q⟩
      simp only [roundScale]
      rw [if_neg (by linarith), if_neg (by rintro ⟨h, _⟩; linarith),
        if_pos ⟨h1, h2⟩]
    · intro h1 h2
      refine ⟨jsRound (q / 100), ?_, habs100 q⟩
      simp only [roundScale]
      rw [if_neg (by linarith), if_pos ⟨h1, h2⟩]
    · intro h1
      refine ⟨jsRound (q / 1000), ?_, habs1000 q⟩
      simp only [roundScale]
      rw [if_pos h1]
  · norm_num [roundScale, jsRound]
  · norm_num [roundScale, jsRound]
  · norm_num [roundScale, jsRound]
  · norm_num [roundScale, jsRound]
  · norm_num [roundScale, jsRound]
  · norm_num [roundScale, jsRound]

/-- Witness for C7: the tier statement applied at the concrete scale `9999`. -/
theorem roundScale_tiers_witness :
    ∃ k : ℤ, roundScale 9999 = some ((k : ℚ) * 10) ∧ |(k : ℚ) * 10 - 9999| ≤ 5 :=
  (roundScale_tiers.1 9999 (by norm_num)).2.1 (by norm_num) (by norm_num)

/-! ## `layerInResolutionRange` -/

/-- The view of a map: `getResolution()` may still be unset. -/
structure OlView where
  resolution : Option ℚ
deriving DecidableEq, Repr

/-- A map as seen by `layerInResolutionRange`: `map && map.getView()` treats a
missing view like a missing map. -/
structure OlMapV where
  view : Option OlView
deriving DecidableEq, Repr

/-- The resolution bounds of a layer (`getMinResolution()`, engine default 0;
`getMaxResolution()`, engine default Infinity, outside this finite model). -/
structure OlLayerRes where
  minResolution : ℚ
  maxResolution : ℚ
deriving DecidableEq, Repr

/-- `!currentRes` in JS: an absent resolution is falsy, and so is a present
resolution of `0`. -/
def jsFalsyRes : Option ℚ → Bool
  | none => true
  | some q => q == 0

/-- `MapUtil.layerInResolutionRange(layer, map)`:
`const mapView = map && map.getView(); const currentRes = mapView &&
mapView.getResolution(); if (!layer || !mapView || !currentRes) return false;
return currentRes >= layer.getMinResolution() && currentRes <
layer.getMaxResolution();` -/
def layerInResolutionRange (layer : Option OlLayerRes) (map : Option OlMapV) :
    Bool :=
  let mapView := map.bind (·.view)
  let currentRes := mapView.bind (·.resolution)
  if layer.isNone || mapView.isNone || jsFalsyRes currentRes then
    false
  else
    match layer, currentRes with
    | some l, some res => decide (res ≥ l.minResolution) && decide (res < l.maxResolution)
    | _, _ => false

/-- Counterexample to C4: with `minResolution = 0`, `maxResolution = 20` and a
present view resolution of `0`, the resolution lies in `[0, 20)` yet the
function returns `false`, because `!currentRes` treats the number `0` as
absent. -/
theorem layerInResolutionRange_zero_counterexample :
    layerInResolutionRange (some ⟨0, 20⟩) (some ⟨some ⟨some 0⟩⟩) = false ∧
    (0 : ℚ) ≥ (0 : ℚ) ∧ (0 : ℚ) < 20 := by
  refine ⟨?_, le_refl 0, by norm_num⟩
  simp [layerInResolutionRange, jsFalsyRes]

/-- C4 (amended): `layerInResolutionRange` returns `true` iff the layer, the
view and the view's resolution are all present, the resolution is nonzero,
and it lies in the half-open interval
`[layer.minResolution, layer.maxResolution)`; it returns `false`, never
throwing, whenever the layer, the view or the resolution is absent — and also
when the resolution is `0`, which JS falsiness treats like an absent one.  In
particular with bounds 10 and 20, resolution 10 gives `true` and resolutions
20 and 9.999 give `false`. -/
theorem layerInResolutionRange_amended :
    (∀ (minR maxR res : ℚ),
      layerInResolutionRange (some ⟨minR, maxR⟩) (some ⟨some ⟨some res⟩⟩) =
        (decide (res ≠ 0) && decide (minR ≤ res) && decide (res < maxR))) ∧
    (∀ map, layerInResolutionRange none map = false) ∧
    (∀ layer, layerInResolutionRange layer none = false) ∧
    (∀ layer, layerInResolutionRange layer (some ⟨none⟩) = false) ∧
    (∀ layer, layerInResolutionRange layer (some ⟨some ⟨none⟩⟩) = false) ∧
    layerInResolutionRange (some ⟨10, 20⟩) (some ⟨some ⟨some 10⟩⟩) = true ∧
    layerInResolutionRange (some ⟨10, 20⟩) (some ⟨some ⟨some 20⟩⟩) = false ∧
    layerInResolutionRange (some ⟨10, 20⟩) (some ⟨some ⟨some 9.999⟩⟩) = false := by
  refine ⟨?_, ?_, ?_, ?_, ?_, ?_, ?_, ?_⟩
  · intro minR maxR res
    by_cases h0 : res = 0
    · simp [layerInResolutionRange, jsFalsyRes, h0]
    · simp [layerInResolutionRange, jsFalsyRes, h0, ge_iff_le]
  · intro map
    simp [layerInResolutionRange]
  · intro layer
    simp [layerInResolutionRange]
  · intro layer
    simp [layerInResolutionRange]
  · intro layer
    cases layer <;> simp [layerInResolutionRange, jsFalsyRes]
  · simp only [layerInResolutionRange, jsFalsyRes, Option.bind]
    norm_num
  · simp only [layerInResolutionRange, jsFalsyRes, Option.bind]
    norm_num
  · simp only [layerInResolutionRange, jsFalsyRes, Option.bind]
    norm_num

/-! ## The layer tree -/

/-- A node of the layer tree: a leaf layer or a layer group
(`ol.layer.Group`) with its ordered children.  The `id` stands for the
engine's object identity (`ol_uid`): two nodes are the same object iff they
are equal. -/
inductive LayerNode where
  | leaf (id : ℕ)
  | group (id : ℕ) (children : List LayerNode)
deriving Repr

mutual

/-- Object identity of layer nodes (reference comparison in JS). -/
def LayerNode.beq : LayerNode → LayerNode → Bool
  | .leaf i, .leaf j => i == j
  | .group i cs, .group j ds => i == j && LayerNode.beqList cs ds
  | _, _ => false

def LayerNode.beqList : List LayerNode → List LayerNode → Bool
  | [], [] => true
  | a :: as, b :: bs => LayerNode.beq a b && LayerNode.beqList as bs
  | _, _ => false

end

instance : BEq LayerNode := ⟨LayerNode.beq⟩

mutual

theorem LayerNode.beq_iff : ∀ (a b : LayerNode), (LayerNode.beq a b = true) ↔ a = b
  | .leaf i, .leaf j => by simp [LayerNode.beq]
  | .leaf _, .group _ _ => by simp [LayerNode.beq]
  | .group _ _, .leaf _ => by simp [LayerNode.beq]
  | .group i cs, .group j ds => by
    simp [LayerNode.beq, LayerNode.beqList_iff cs ds]

theorem LayerNode.beqList_iff :
    ∀ (as bs : List LayerNode), (LayerNode.beqList as bs = true) ↔ as = bs
  | [], [] => by simp [LayerNode.beqList]
  | [], _ :: _ => by simp [LayerNode.beqList]
  | _ :: _, [] => by simp [LayerNode.beqList]
  | a :: as, b :: bs => by
    simp [LayerNode.beqList, LayerNode.beq_iff a b, LayerNode.beqList_iff as bs]

end

instance : LawfulBEq LayerNode where
  eq_of_beq h := (LayerNode.beq_iff _ _).mp h
  rfl := (LayerNode.beq_iff _ _).mpr rfl

instance : DecidableEq LayerNode := fun a b =>
  decidable_of_iff (LayerNode.beq a b = true) (LayerNode.beq_iff a b)

/-- `layer instanceof OlLayerGroup` -/
def LayerNode.isGroup : LayerNode → Bool
  | .group _ _ => true
  | .leaf _ => false

theorem LayerNode.isGroup_leaf (i : ℕ) : (LayerNode.leaf i).isGroup = false := rfl

theorem LayerNode.isGroup_group (i : ℕ) (cs : List LayerNode) :
    (LayerNode.group i cs).isGroup = true := rfl

/-- `getLayers().getArray()` of a group (a leaf has no children). -/
def LayerNode.childrenOf : LayerNode → List LayerNode
  | .leaf _ => []
  | .group _ cs => cs

/-- Depth-first pre-order listing of all nodes of a forest: each node is
followed by its subtree, then its right siblings. -/
def dfsList : List LayerNode → List LayerNode
  | [] => []
  | .leaf i :: rest => .leaf i :: dfsList rest
  | .group i cs :: rest => .group i cs :: (dfsList cs ++ dfsList rest)

/-- Count of leaf layers in a forest. -/
def leafCountList : List LayerNode → ℕ
  | [] => 0
  | .leaf _ :: rest => 1 + leafCountList rest
  | .group _ cs :: rest => leafCountList cs + leafCountList rest

/-- The loop body of `MapUtil.getLayersByGroup`: for each child of the group,
a nested group is flattened recursively (`layerCandidates.push(...
MapUtil.getLayersByGroup(map, layer))`), any other layer is pushed as is. -/
def groupFlatten : List LayerNode → List LayerNode
  | [] => []
  | .leaf i :: rest => .leaf i :: groupFlatten rest
  | .group i cs :: rest => groupFlatten cs ++ groupFlatten rest

/-- `MapUtil.getLayersByGroup(map, layerGroup)`; the `map` argument is only
passed through to the recursive calls and never used. -/
def getLayersByGroup (map : Unit) (layerGroup : LayerNode) : List LayerNode :=
  groupFlatten layerGroup.childrenOf

theorem groupFlatten_eq_filter_dfs (cs : List LayerNode) :
    groupFlatten cs = (dfsList cs).filter (fun n => !n.isGroup) := by
  induction cs using groupFlatten.induct with
  | case1 => simp [groupFlatten, dfsList]
  | case2 i rest ih =>
    simp [groupFlatten, dfsList, List.filter_cons, LayerNode.isGroup_leaf, ih]
  | case3 i cc rest ih1 ih2 =>
    simp [groupFlatten, dfsList, List.filter_cons, List.filter_append,
      LayerNode.isGroup_group, ih1, ih2]

theorem leaf_filter_length (cs : List LayerNode) :
    ((dfsList cs).filter (fun n => !n.isGroup)).length = leafCountList cs := by
  induction cs using leafCountList.induct with
  | case1 => simp [dfsList, leafCountList]
  | case2 i rest ih =>
    simp only [dfsList, leafCountList, List.filter_cons, LayerNode.isGroup_leaf,
      Bool.not_false, if_pos, List.length_cons, ih]
    omega
  | case3 i cc rest ih1 ih2 =>
    simp only [dfsList, leafCountList, List.filter_cons, List.filter_append,
      LayerNode.isGroup_group, Bool.not_true]
    rw [if_neg (by simp)]
    simp [List.length_append, ih1, ih2]

/-- C1: `getLayersByGroup` returns exactly the leaf layers of the tree in
depth-first traversal order (the non-group entries of the pre-order node
listing of the group's subtree, in order), never includes a group layer, and
its length is the number of leaf layers of the tree; for
`Group1[LayerA, Group2[LayerB, LayerC]]` it returns
`[LayerA, LayerB, LayerC]` in that order. -/
theorem getLayersByGroup_leaves :
    (∀ (map : Unit) (t : LayerNode),
      getLayersByGroup map t = (dfsList t.childrenOf).filter (fun n => !n.isGroup)) ∧
    (∀ (map : Unit) (t : LayerNode),
      (getLayersByGroup map t).all (fun n => !n.isGroup) = true) ∧
    (∀ (map : Unit) (i : ℕ) (cs : List LayerNode),
      (getLayersByGroup map (.group i cs)).length = leafCountList cs) ∧
    getLayersByGroup () (.group 100 [.leaf 0, .group 101 [.leaf 1, .leaf 2]]) =
      [.leaf 0, .leaf 1, .leaf 2] := by
  have hmain : ∀ (map : Unit) (t : LayerNode),
      getLayersByGroup map t = (dfsList t.childrenOf).filter (fun n => !n.isGroup) := by
    intro map t
    exact groupFlatten_eq_filter_dfs t.childrenOf
  refine ⟨hmain, ?_, ?_, ?_⟩
  · intro map t
    rw [hmain map t]
    simp only [List.all_eq_true, List.mem_filter]
    intro x hx
    exact hx.2
  · intro map i cs
    rw [hmain map (.group i cs)]
    exact leaf_filter_length cs
  · simp [getLayersByGroup, LayerNode.childrenOf, groupFlatten]

/-! ## `getLayerPositionInfo` -/

/-- The loop of `MapUtil.getLayerPositionInfo`: `layers.forEach((childLayer)
=> { if (childLayer instanceof OlLayerGroup && !info.groupLayer) { info =
MapUtil.getLayerPositionInfo(layer, childLayer); } });` with `info` threaded
through as the accumulator.  A group child is searched only while `info` is
still empty (`!info.groupLayer`); the recursive call
`getLayerPositionInfo(layer, childLayer)` is inlined as the
containment-or-descend conditional; every other child leaves `info`
unchanged.  `{}` is modelled as `none` and `{groupLayer, position}` as
`some (group, position)`; the containment test stands for
`layers.indexOf(layer) < 0` being false. -/
def searchLoop (layer : LayerNode) :
    List LayerNode → Option (LayerNode × ℕ) → Option (LayerNode × ℕ)
  | [], info => info
  | .group j cc :: rest, none =>
    searchLoop layer rest
      (if cc.contains layer then some (.group j cc, cc.indexOf layer)
       else searchLoop layer cc none)
  | _ :: rest, info => searchLoop layer rest info

/-- `MapUtil.getLayerPositionInfo(layer, groupLayerOrMap)`: the root is the
group itself or the map's root layer group (a leaf root does not occur in the
code).  If `layers.indexOf(layer)` is non-negative the info is the current
group and that index, otherwise the child groups are searched in order. -/
def getLayerPositionInfo (layer : LayerNode) (root : LayerNode) :
    Option (LayerNode × ℕ) :=
  match root with
  | .leaf _ => none
  | .group i cs =>
    if cs.contains layer then some (.group i cs, cs.indexOf layer)
    else searchLoop layer cs none

/-- Whether `n` is a group owning `layer` as an immediate child. -/
def ownsLayer (layer n : LayerNode) : Bool :=
  n.isGroup && n.childrenOf.contains layer

/-- The groups of the root's subtree owning `layer` as an immediate child, in
depth-first pre-order. -/
def owningGroupsDFS (layer root : LayerNode) : List LayerNode :=
  (dfsList [root]).filter (ownsLayer layer)

/-- The search result of a node's immediate-children-first search, as a
function of the DFS listing: the head of the owning groups in pre-order. -/
def firstOwnerInfo (layer : LayerNode) (cs : List LayerNode) :
    Option (LayerNode × ℕ) :=
  ((dfsList cs).filter (ownsLayer layer)).head?.map
    (fun g => (g, g.childrenOf.indexOf layer))

theorem searchLoop_spec (layer : LayerNode) (cs : List LayerNode)
    (info : Option (LayerNode × ℕ)) :
    searchLoop layer cs info = info.or (firstOwnerInfo layer cs) := by
  induction cs, info using searchLoop.induct layer with
  | case1 info =>
    simp [searchLoop, firstOwnerInfo, dfsList, Option.or_none]
  | case2 j cc rest ih1 ih2 =>
    simp only [dite_eq_ite] at ih2
    rw [searchLoop, ih2]
    simp only [Option.none_or] at ih1
    have howns : ownsLayer layer (.group j cc) = cc.contains layer := by
      simp only [ownsLayer, LayerNode.isGroup_group, LayerNode.childrenOf, Bool.true_and]
    by_cases hc : cc.contains layer
    · rw [if_pos hc]
      simp only [Option.none_or, firstOwnerInfo, dfsList, List.filter_cons]
      rw [if_pos (howns.trans hc)]
      simp [LayerNode.childrenOf]
    · rw [if_neg hc, ih1]
      simp only [Option.none_or, firstOwnerInfo, dfsList, List.filter_cons]
      rw [if_neg (fun h => hc (howns.symm.trans h))]
      rw [List.filter_append]
      rcases hsplit : (dfsList cc).filter (ownsLayer layer) with _ | ⟨g, gs⟩
      · simp [dfsList, List.filter_append, hsplit]
      · simp [dfsList, List.filter_append, hsplit]
  | case3 head rest info hside ih =>
    rw [searchLoop, ih]
    · rcases info with _ | x
      · -- `info` empty: the head cannot be a group (side condition), so it is
        -- a leaf and owns nothing.
        rcases head with i | ⟨j, cc⟩
        · simp only [Option.none_or, firstOwnerInfo, dfsList, List.filter_cons]
          rw [if_neg (by simp [ownsLayer, LayerNode.isGroup_leaf])]
        · exact absurd rfl (fun h => hside j cc h rfl)
      · simp
    · exact hside

/-- C8: `getLayerPositionInfo` returns an empty info (no `groupLayer` key,
modelled as `none`) iff the layer is not an immediate child of any group in
the root's subtree; otherwise it returns the first owning group in depth-first
pre-order — so no sibling subtree is considered after a match — together with
the layer's index among that group's immediate children; for
`Group1[LayerA, Group2[LayerB, LayerC]]`, the position of `LayerC` is
`Group2` at index 1. -/
theorem getLayerPositionInfo_spec :
    (∀ (layer root : LayerNode),
      getLayerPositionInfo layer root =
        (owningGroupsDFS layer root).head?.map
          (fun g => (g, g.childrenOf.indexOf layer))) ∧
    (∀ (layer root : LayerNode),
      (getLayerPositionInfo layer root = none ↔ owningGroupsDFS layer root = [])) ∧
    getLayerPositionInfo (.leaf 2) (.group 100 [.leaf 0, .group 101 [.leaf 1, .leaf 2]]) =
      some (.group 101 [.leaf 1, .leaf 2], 1) := by
  have hmain : ∀ (layer root : LayerNode),
      getLayerPositionInfo layer root =
        (owningGroupsDFS layer root).head?.map
          (fun g => (g, g.childrenOf.indexOf layer)) := by
    intro layer root
    rcases root with i | ⟨i, cs⟩
    · simp only [getLayerPositionInfo, owningGroupsDFS, dfsList, List.filter_cons]
      rw [if_neg (by simp [ownsLayer, LayerNode.isGroup_leaf])]
      rfl
    · have hroot : dfsList [LayerNode.group i cs] = LayerNode.group i cs :: dfsList cs := by
        simp [dfsList]
      have howns : ownsLayer layer (.group i cs) = cs.contains layer := by
        simp only [ownsLayer, LayerNode.isGroup_group, LayerNode.childrenOf, Bool.true_and]
      simp only [getLayerPositionInfo]
      by_cases hc : cs.contains layer
      · rw [if_pos hc]
        simp only [owningGroupsDFS, hroot, List.filter_cons]
        rw [if_pos (howns.trans hc)]
        simp [LayerNode.childrenOf]
      · rw [if_neg hc, searchLoop_spec]
        simp only [Option.none_or, firstOwnerInfo, owningGroupsDFS, hroot, List.filter_cons]
        rw [if_neg (fun h => hc (howns.symm.trans h))]
  refine ⟨hmain, ?_, ?_⟩
  · intro layer root
    rw [hmain]
    simp
  · rw [hmain]
    simp only [owningGroupsDFS, dfsList, List.filter_cons, List.filter_nil, List.append_nil,
      List.nil_append, List.cons_append]
    simp [ownsLayer, LayerNode.isGroup, LayerNode.childrenOf, List.contains_cons,
      LayerNode.beq, LayerNode.beqList, List.indexOf, List.findIdx, List.findIdx.go,
      instBEqLayerNode]

/-! ## `getLegendGraphicUrl` -/

/-- Reading a key of a JS object modelled as an ordered key-value list (own
enumerable string properties in insertion order). -/
def lookupParam (ps : List (String × String)) (k : String) : Option String :=
  (ps.find? (fun kv => kv.1 == k)).map (fun kv => kv.2)

/-- One step of `Object.assign(target, source)`: an existing key is
overwritten in place, a new key is appended at the end. -/
def assignOne (base : List (String × String)) (kv : String × String) :
    List (String × String) :=
  if base.any (fun p => p.1 == kv.1) then
    base.map (fun p => if p.1 == kv.1 then (p.1, kv.2) else p)
  else
    base ++ [kv]

/-- `Object.assign(params, extraParams)`: the source's keys are written onto
the target in order, so caller-supplied values win on key collision. -/
def jsAssign (base extra : List (String × String)) : List (String × String) :=
  extra.foldl assignOne base

/-- Modelled from the spec: `UrlUtil.objectToRequestString` of
`@terrestris/base-util` is the external URL-encoder collaborator whose source
is not part of this repository; per the spec (§1, §6) it encodes a string
mapping in query-string form, i.e. `key=value` pairs joined by `&`. -/
def objectToRequestString (ps : List (String × String)) : String :=
  String.intercalate "&" (ps.map (fun kv => kv.1 ++ "=" ++ kv.2))

/-- The sources `getLegendGraphicUrl` distinguishes: `ol.source.TileWMS`
(`getUrls()` returns the configured URL list or null), `ol.source.ImageWMS`
(`getUrl()` returns the single URL), and any other source. -/
inductive OlSource where
  | tileWMS (urls : Option (List String)) (params : List (String × String))
  | imageWMS (url : String) (params : List (String × String))
  | other
deriving DecidableEq, Repr

/-- A layer as seen by `getLegendGraphicUrl`: its name (for the warning) and
its source, if any. -/
structure OlWmsLayer where
  name : String
  source : Option OlSource
deriving DecidableEq, Repr

/-- The parameter object built for a WMS source: `{LAYER:
source.getParams().LAYERS, VERSION: '1.3.0', SERVICE: 'WMS', REQUEST:
'getLegendGraphic', FORMAT: 'image/png'}` (a missing `LAYERS` would be
interpolated as `undefined`). -/
def wmsLegendParams (params : List (String × String)) : List (String × String) :=
  [("LAYER", (lookupParam params "LAYERS").getD "undefined"),
   ("VERSION", "1.3.0"),
   ("SERVICE", "WMS"),
   ("REQUEST", "getLegendGraphic"),
   ("FORMAT", "image/png")]

/-- `/\?/.test(url)` -/
def hasQueryMark (url : String) : Bool :=
  url.data.any (fun c => c == '?')

/-- `` return /\?/.test(url) ? `${url}&${queryString}` :
`${url}?${queryString}`; `` -/
def appendQuery (url queryString : String) : String :=
  if hasQueryMark url then url ++ "&" ++ queryString
  else url ++ "?" ++ queryString

/-- `MapUtil.getLegendGraphicUrl(layer, extraParams)`: returns `undefined`
(with a logged error or warning) for a missing layer, a missing source or an
unsupported source kind; for a tiled WMS source the first configured URL is
used (`''` when `getUrls()` is null, the interpolated `undefined` when the
list is empty), for a single-image WMS source its URL. -/
def getLegendGraphicUrl (layer : Option OlWmsLayer)
    (extraParams : List (String × String)) : Option String :=
  match layer with
  | none => none
  | some l =>
    match l.source with
    | none => none
    | some source =>
      match source with
      | .tileWMS urls params =>
        let url :=
          match urls with
          | none => ""
          | some us =>
            match us.head? with
            | some u => u
            | none => "undefined"
        some (appendQuery url
          (objectToRequestString (jsAssign (wmsLegendParams params) extraParams)))
      | .imageWMS url params =>
        some (appendQuery url
          (objectToRequestString (jsAssign (wmsLegendParams params) extraParams)))
      | .other => none

theorem lookupParam_map_overwrite (k v : String) :
    ∀ (base : List (String × String)), base.any (fun p => p.1 == k) = true →
      lookupParam (base.map (fun p => if p.1 == k then (p.1, v) else p)) k = some v := by
  intro base
  induction base with
  | nil => simp
  | cons p rest ih =>
    intro hany
    by_cases hp : (p.1 == k) = true
    · simp only [List.map_cons, if_pos hp, lookupParam]
      rw [@List.find?_cons_of_pos _ (fun kv => kv.1 == k) (p.1, v) _ hp]
      simp
    · have hrest : rest.any (fun p => p.1 == k) = true := by
        simp only [List.any_cons] at hany
        rcases Bool.or_eq_true_iff.mp hany with h | h
        · exact absurd h hp
        · exact h
      simp only [List.map_cons, if_neg hp, lookupParam]
      rw [@List.find?_cons_of_neg _ (fun kv => kv.1 == k) p _ (by simp [hp])]
      exact ih hrest

theorem lookupParam_assignOne_self (base : List (String × String)) (k v : String) :
    lookupParam (assignOne base (k, v)) k = some v := by
  by_cases hany : base.any (fun p => p.1 == k) = true
  · rw [assignOne, if_pos hany]
    exact lookupParam_map_overwrite k v base hany
  · rw [assignOne, if_neg hany]
    have hnone : base.find? (fun kv => kv.1 == k) = none := by
      rw [List.find?_eq_none]
      intro x hx hpx
      exact hany (List.any_eq_true.mpr ⟨x, hx, hpx⟩)
    simp [lookupParam, List.find?_append, hnone]

theorem lookupParam_map_other (k' v' k : String) (hne : (k == k') = false) :
    ∀ (base : List (String × String)),
      lookupParam (base.map (fun p => if p.1 == k' then (p.1, v') else p)) k =
        lookupParam base k := by
  intro base
  induction base with
  | nil => rfl
  | cons p rest ih =>
    simp only [List.map_cons]
    by_cases hpk : (p.1 == k) = true
    · have hp1 : p.1 = k := eq_of_beq hpk
      have hpk' : (p.1 == k') = false := by
        rw [hp1]
        exact hne
      rw [if_neg (by simp [hpk'])]
      simp only [lookupParam]
      rw [@List.find?_cons_of_pos _ (fun kv => kv.1 == k) p _ hpk]
      rw [@List.find?_cons_of_pos _ (fun kv => kv.1 == k) p _ hpk]
    · by_cases hpk2 : (p.1 == k') = true
      · rw [if_pos hpk2]
        simp only [lookupParam]
        rw [@List.find?_cons_of_neg _ (fun kv => kv.1 == k) (p.1, v') _ (by simp [hpk])]
        rw [@List.find?_cons_of_neg _ (fun kv => kv.1 == k) p _ (by simp [hpk])]
        exact ih
      · rw [if_neg (by simp [hpk2])]
        simp only [lookupParam]
        rw [@List.find?_cons_of_neg _ (fun kv => kv.1 == k) p _ (by simp [hpk])]
        rw [@List.find?_cons_of_neg _ (fun kv => kv.1 == k) p _ (by simp [hpk])]
        exact ih

theorem lookupParam_assignOne_other (base : List (String × String))
    (k' v' k : String) (hne : (k == k') = false) :
    lookupParam (assignOne base (k', v')) k = lookupParam base k := by
  have hkk : ¬ k' = k := by
    intro h
    rw [h] at hne
    simp at hne
  by_cases hany : base.any (fun p => p.1 == k') = true
  · rw [assignOne, if_pos hany]
    exact lookupParam_map_other k' v' k hne base
  · rw [assignOne, if_neg hany]
    simp only [lookupParam, List.find?_append]
    have h2 : List.find? (fun kv => kv.1 == k) [(k', v')] = none := by
      rw [@List.find?_cons_of_neg _ (fun kv => kv.1 == k) (k', v') _
        (by simp only [beq_iff_eq]; exact hkk)]
      rfl
    rw [h2, Option.or_none]

theorem lookupParam_jsAssign_absent (k : String) :
    ∀ (extra : List (String × String)), (∀ kv ∈ extra, (k == kv.1) = false) →
      ∀ (base : List (String × String)),
        lookupParam (jsAssign base extra) k = lookupParam base k := by
  intro extra
  induction extra with
  | nil =>
    intro _ base
    rfl
  | cons kv rest ih =>
    intro hall base
    simp only [jsAssign, List.foldl_cons]
    have hstep := ih (fun x hx => hall x (List.mem_cons_of_mem _ hx)) (assignOne base kv)
    simp only [jsAssign] at hstep
    rw [hstep]
    exact lookupParam_assignOne_other base kv.1 kv.2 k (hall kv (List.mem_cons_self _ _))

theorem lookupParam_jsAssign_wins :
    ∀ (extra base : List (String × String)) (k v : String),
      (extra.map Prod.fst).Nodup → (k, v) ∈ extra →
      lookupParam (jsAssign base extra) k = some v := by
  intro extra
  induction extra with
  | nil =>
    intro base k v _ hmem
    simp at hmem
  | cons kv rest ih =>
    intro base k v hnodup hmem
    simp only [List.map_cons, List.nodup_cons] at hnodup
    rcases List.mem_cons.mp hmem with heq | hmem'
    · have hknot : ∀ x ∈ rest, (k == x.1) = false := by
        intro x hx
        have hx1 : x.1 ∈ rest.map Prod.fst := List.mem_map_of_mem _ hx
        have : ¬ k = x.1 := by
          intro h
          rw [← heq] at hnodup
          exact hnodup.1 (h ▸ hx1)
        simp [this]
      simp only [jsAssign, List.foldl_cons]
      have habs := lookupParam_jsAssign_absent k rest hknot (assignOne base kv)
      simp only [jsAssign] at habs
      rw [habs, ← heq]
      exact lookupParam_assignOne_self base k v
    · simp only [jsAssign, List.foldl_cons]
      have := ih (assignOne base kv) k v hnodup.2 hmem'
      simp only [jsAssign] at this
      exact this

/-- C9: for every layer with a tiled or single-image WMS source,
`getLegendGraphicUrl` builds the parameter set `{LAYER: source.params.LAYERS,
VERSION: "1.3.0", SERVICE: "WMS", REQUEST: "getLegendGraphic", FORMAT:
"image/png"}` (`wmsLegendParams`), overlays `extraParams` with
caller-supplied values winning on key collision, and appends the encoded
query string with `?` when the base URL has no `?` yet and with `&`
otherwise; for a tiled source with URL `"http://x/wms"` and params `{LAYERS:
"foo"}` the result is exactly
`"http://x/wms?LAYER=foo&VERSION=1.3.0&SERVICE=WMS&REQUEST=getLegendGraphic&FORMAT=image/png"`. -/
theorem getLegendGraphicUrl_spec :
    (∀ (name u : String) (us : List String) (params extra : List (String × String)),
      getLegendGraphicUrl (some ⟨name, some (.tileWMS (some (u :: us)) params)⟩) extra =
        some (appendQuery u
          (objectToRequestString (jsAssign (wmsLegendParams params) extra)))) ∧
    (∀ (name u : String) (params extra : List (String × String)),
      getLegendGraphicUrl (some ⟨name, some (.imageWMS u params)⟩) extra =
        some (appendQuery u
          (objectToRequestString (jsAssign (wmsLegendParams params) extra)))) ∧
    (∀ (base extra : List (String × String)) (k v : String),
      (extra.map Prod.fst).Nodup → (k, v) ∈ extra →
        lookupParam (jsAssign base extra) k = some v) ∧
    (∀ (url q : String), appendQuery url q =
      if hasQueryMark url then url ++ "&" ++ q else url ++ "?" ++ q) ∧
    getLegendGraphicUrl
        (some ⟨"x", some (.tileWMS (some ["http://x/wms"]) [("LAYERS", "foo")])⟩) [] =
      some "http://x/wms?LAYER=foo&VERSION=1.3.0&SERVICE=WMS&REQUEST=getLegendGraphic&FORMAT=image/png" ∧
    getLegendGraphicUrl
        (some ⟨"x", some (.tileWMS (some ["http://x/wms?map=a"]) [("LAYERS", "foo")])⟩) [] =
      some "http://x/wms?map=a&LAYER=foo&VERSION=1.3.0&SERVICE=WMS&REQUEST=getLegendGraphic&FORMAT=image/png" := by
  refine ⟨?_, ?_, ?_, ?_, ?_, ?_⟩
  · intro name u us params extra
    rfl
  · intro name u params extra
    rfl
  · intro base extra k v hnodup hmem
    exact lookupParam_jsAssign_wins extra base k v hnodup hmem
  · intro url q
    rfl
  · decide
  · decide

/-- Witness for C9: a caller-supplied `FORMAT` wins over the built-in
`image/png` on the concrete parameter set. -/
theorem getLegendGraphicUrl_spec_witness :
    lookupParam
        (jsAssign (wmsLegendParams [("LAYERS", "foo")]) [("FORMAT", "image/jpeg")])
        "FORMAT" = some "image/jpeg" :=
  getLegendGraphicUrl_spec.2.2.1 (wmsLegendParams [("LAYERS", "foo")])
    [("FORMAT", "image/jpeg")] "FORMAT" "image/jpeg" (by decide) (by decide)
